import Mathlib

/-!
Verification of the in-memory priority task broker (src/main.go):
a shallow embedding of the `Task` / `Queue` / `QueueManager` data model
and of the operations `Queue.Push`, `Queue.Pop`, `QueueManager.GetQueue`
and the handler-level push/pop paths, followed by theorems about
priority ordering, FIFO within a tier, queue isolation, and the
get-or-create registry discipline.
-/

namespace Broker

/-- Embedding of `Task` (src/main.go lines 11-14): a body string and a
priority string ("low", "medium", "high" are the recognized values). -/
structure Task where
  Body : String
  Priority : String
  deriving DecidableEq

/-- Embedding of `Queue` (src/main.go lines 17-22): three tier sequences.
The `sync.Mutex` field only serializes operations on one queue; in this
sequential embedding each operation is a whole-state function, which is
exactly the atomicity the mutex provides. -/
structure Queue where
  High : List Task
  Medium : List Task
  Low : List Task
  deriving DecidableEq

/-- The Go zero value `&Queue{}`: all three tier slices empty. -/
def Queue.emptyQ : Queue where
  High := []
  Medium := []
  Low := []

/-- Embedding of `Queue.Push` (src/main.go lines 25-38): the `switch` on
`task.Priority` appends to the matching tier, with `default` (any other
or missing priority) appending to the low tier. The task value itself is
stored unchanged. -/
def Queue.Push (q : Queue) (task : Task) : Queue :=
  if task.Priority = "high" then { q with High := q.High ++ [task] }
  else if task.Priority = "medium" then { q with Medium := q.Medium ++ [task] }
  else { q with Low := q.Low ++ [task] }

/-- Embedding of `Queue.Pop` (src/main.go lines 41-61): examine High,
then Medium, then Low; remove and return the front element of the first
non-empty tier; return `none` (Go `nil`) when all three are empty. -/
def Queue.Pop (q : Queue) : Option Task × Queue :=
  match q.High with
  | task :: rest => (some task, { q with High := rest })
  | [] =>
    match q.Medium with
    | task :: rest => (some task, { q with Medium := rest })
    | [] =>
      match q.Low with
      | task :: rest => (some task, { q with Low := rest })
      | [] => (none, q)

/-- The three priority tiers a task can be bucketed into. -/
inductive Tier where
  | high
  | medium
  | low
  deriving DecidableEq

/-- The tier selected by the `switch` in `Queue.Push` for a given task:
"high" and "medium" map to their tiers, everything else to low. -/
def effTier (t : Task) : Tier :=
  if t.Priority = "high" then Tier.high
  else if t.Priority = "medium" then Tier.medium
  else Tier.low

/-- Accessor for the tier sequences of a queue. -/
def Queue.tierGet (q : Queue) : Tier → List Task
  | Tier.high => q.High
  | Tier.medium => q.Medium
  | Tier.low => q.Low

/-- `Queue.Push` appends the pushed task to exactly the tier chosen by its
priority switch and leaves the other tiers untouched. -/
theorem Queue.push_tierGet (q : Queue) (t : Task) (T : Tier) :
    Queue.tierGet (q.Push t) T =
      if effTier t = T then Queue.tierGet q T ++ [t] else Queue.tierGet q T := by
  unfold Queue.Push effTier
  split_ifs with h1 h2 <;> cases T <;> simp_all [Queue.tierGet]

/-- Instrumented variant of `Queue.Pop` that also records which tier the
returned task was removed from; `Queue.popWithTier_spec` below proves it
agrees with `Queue.Pop` on both the result and the new state. -/
def Queue.popWithTier (q : Queue) : Option (Tier × Task) × Queue :=
  match q.High with
  | task :: rest => (some (Tier.high, task), { q with High := rest })
  | [] =>
    match q.Medium with
    | task :: rest => (some (Tier.medium, task), { q with Medium := rest })
    | [] =>
      match q.Low with
      | task :: rest => (some (Tier.low, task), { q with Low := rest })
      | [] => (none, q)

theorem Queue.popWithTier_spec (q : Queue) :
    (q.popWithTier).1.map Prod.snd = (q.Pop).1 ∧ (q.popWithTier).2 = (q.Pop).2 := by
  rcases q with ⟨h, m, l⟩
  cases h <;> cases m <;> cases l <;> simp [Queue.popWithTier, Queue.Pop]

/-- A queue-level operation: a push of a task, or a pop. -/
inductive Op where
  | push (t : Task)
  | pop
  deriving DecidableEq

/-- Run a sequence of operations on a queue, collecting the log of
successful pops as (tier removed from, task returned) pairs. -/
def Queue.runLog : Queue → List Op → List (Tier × Task) × Queue
  | q, [] => ([], q)
  | q, Op.push t :: ops => Queue.runLog (q.Push t) ops
  | q, Op.pop :: ops =>
    match q.popWithTier with
    | (none, q1) => Queue.runLog q1 ops
    | (some p, q1) =>
      let r := Queue.runLog q1 ops
      (p :: r.1, r.2)

/-- The tasks among `ops` pushed into tier `T` (by the priority switch of
`Queue.Push`), in push order. -/
def pushedTo (T : Tier) : List Op → List Task
  | [] => []
  | Op.push t :: ops =>
    if effTier t = T then t :: pushedTo T ops else pushedTo T ops
  | Op.pop :: ops => pushedTo T ops

/-- The tasks a pop log records as removed from tier `T`, in pop order. -/
def poppedFrom (T : Tier) (log : List (Tier × Task)) : List Task :=
  log.filterMap (fun p => if p.1 = T then some p.2 else none)

theorem poppedFrom_nil (T : Tier) : poppedFrom T [] = [] := rfl

theorem poppedFrom_cons_eq (T : Tier) (t : Task) (log : List (Tier × Task)) :
    poppedFrom T ((T, t) :: log) = t :: poppedFrom T log := by
  simp [poppedFrom]

theorem poppedFrom_cons_ne (S T : Tier) (t : Task) (log : List (Tier × Task))
    (h : S ≠ T) : poppedFrom T ((S, t) :: log) = poppedFrom T log := by
  simp [poppedFrom, h]

/-- Extending a FIFO prefix invariant across one successful pop that
removed task `t` from tier `S`, turning queue `q` into `q1`. -/
theorem fifo_pop_extend (T S : Tier) (t : Task) (q q1 : Queue) (ops : List Op)
    (htier : S = T → Queue.tierGet q T = t :: Queue.tierGet q1 T)
    (hoth : S ≠ T → Queue.tierGet q1 T = Queue.tierGet q T)
    (IH : ∃ k, k ≤ (Queue.tierGet q1 T ++ pushedTo T ops).length ∧
        poppedFrom T (Queue.runLog q1 ops).1 =
          (Queue.tierGet q1 T ++ pushedTo T ops).take k ∧
        Queue.tierGet (Queue.runLog q1 ops).2 T =
          (Queue.tierGet q1 T ++ pushedTo T ops).drop k) :
    ∃ k, k ≤ (Queue.tierGet q T ++ pushedTo T ops).length ∧
      poppedFrom T ((S, t) :: (Queue.runLog q1 ops).1) =
        (Queue.tierGet q T ++ pushedTo T ops).take k ∧
      Queue.tierGet (Queue.runLog q1 ops).2 T =
        (Queue.tierGet q T ++ pushedTo T ops).drop k := by
  obtain ⟨k, hk, hpop, hdrop⟩ := IH
  by_cases hST : S = T
  · subst hST
    rw [htier rfl]
    refine ⟨k + 1, ?_, ?_, ?_⟩
    · simp only [List.cons_append, List.length_cons]
      omega
    · rw [poppedFrom_cons_eq]
      simp only [List.cons_append, List.take_succ_cons]
      rw [hpop]
    · simp only [List.cons_append, List.drop_succ_cons]
      exact hdrop
  · rw [poppedFrom_cons_ne S T t _ hST, ← hoth hST]
    exact ⟨k, hk, hpop, hdrop⟩

/-- FIFO invariant of `Queue.runLog`: for every tier `T`, the sequence of
tasks popped from `T` is an initial segment of the initial contents of
`T` followed by the pushes into `T`, and the final contents of `T` are
exactly the rest of that list. -/
theorem Queue.runLog_fifo (T : Tier) :
    ∀ (ops : List Op) (q : Queue),
      ∃ k, k ≤ (Queue.tierGet q T ++ pushedTo T ops).length ∧
        poppedFrom T (Queue.runLog q ops).1 =
          (Queue.tierGet q T ++ pushedTo T ops).take k ∧
        Queue.tierGet (Queue.runLog q ops).2 T =
          (Queue.tierGet q T ++ pushedTo T ops).drop k := by
  intro ops
  induction ops with
  | nil =>
    intro q
    refine ⟨0, ?_, ?_, ?_⟩ <;> simp [Queue.runLog, pushedTo, poppedFrom]
  | cons op ops ih =>
    intro q
    cases op with
    | push t =>
      obtain ⟨k, hk, hpop, hdrop⟩ := ih (q.Push t)
      have heq : Queue.tierGet (q.Push t) T ++ pushedTo T ops =
          Queue.tierGet q T ++ pushedTo T (Op.push t :: ops) := by
        rw [Queue.push_tierGet]
        by_cases h : effTier t = T <;> simp [pushedTo, h, List.append_assoc]
      have hrun : Queue.runLog q (Op.push t :: ops) = Queue.runLog (q.Push t) ops := rfl
      rw [hrun, ← heq]
      exact ⟨k, hk, hpop, hdrop⟩
    | pop =>
      rcases q with ⟨h, m, l⟩
      have hpush : pushedTo T (Op.pop :: ops) = pushedTo T ops := rfl
      rcases h with _ | ⟨t, hs⟩
      · rcases m with _ | ⟨t, ms⟩
        · rcases l with _ | ⟨t, ls⟩
          · have hrun : Queue.runLog ⟨[], [], []⟩ (Op.pop :: ops) =
                Queue.runLog ⟨[], [], []⟩ ops := rfl
            rw [hrun, hpush]
            exact ih ⟨[], [], []⟩
          · have hrun : Queue.runLog ⟨[], [], t :: ls⟩ (Op.pop :: ops) =
                ((Tier.low, t) :: (Queue.runLog ⟨[], [], ls⟩ ops).1,
                  (Queue.runLog ⟨[], [], ls⟩ ops).2) := rfl
            rw [hrun, hpush]
            refine fifo_pop_extend T Tier.low t ⟨[], [], t :: ls⟩ ⟨[], [], ls⟩ ops
              ?_ ?_ (ih ⟨[], [], ls⟩)
            · intro hT
              cases hT
              simp [Queue.tierGet]
            · intro hT
              cases T <;> simp_all [Queue.tierGet]
        · have hrun : Queue.runLog ⟨[], t :: ms, l⟩ (Op.pop :: ops) =
              ((Tier.medium, t) :: (Queue.runLog ⟨[], ms, l⟩ ops).1,
                (Queue.runLog ⟨[], ms, l⟩ ops).2) := rfl
          rw [hrun, hpush]
          refine fifo_pop_extend T Tier.medium t ⟨[], t :: ms, l⟩ ⟨[], ms, l⟩ ops
            ?_ ?_ (ih ⟨[], ms, l⟩)
          · intro hT
            cases hT
            simp [Queue.tierGet]
          · intro hT
            cases T <;> simp_all [Queue.tierGet]
      · have hrun : Queue.runLog ⟨t :: hs, m, l⟩ (Op.pop :: ops) =
            ((Tier.high, t) :: (Queue.runLog ⟨hs, m, l⟩ ops).1,
              (Queue.runLog ⟨hs, m, l⟩ ops).2) := rfl
        rw [hrun, hpush]
        refine fifo_pop_extend T Tier.high t ⟨t :: hs, m, l⟩ ⟨hs, m, l⟩ ops
          ?_ ?_ (ih ⟨hs, m, l⟩)
        · intro hT
          cases hT
          simp [Queue.tierGet]
        · intro hT
          cases T <;> simp_all [Queue.tierGet]

/-- Embedding of `QueueManager` (src/main.go lines 64-67): the name-to-queue
map is modelled as a partial function from names to queues, which is the
extensional content of a Go map; the `sync.RWMutex` serializes the
operations modelled below as whole-state functions. -/
structure QueueManager where
  Queues : String → Option Queue

/-- Embedding of `NewQueueManager` (src/main.go lines 69-73): an empty map. -/
def NewQueueManager : QueueManager where
  Queues := fun _ => none

/-- Map store `qm.Queues[name] = q`, as performed inside `GetQueue` and,
through the returned pointer, by `Push`/`Pop` on the resolved queue. -/
def QueueManager.setQueue (qm : QueueManager) (name : String) (q : Queue) :
    QueueManager where
  Queues := fun n => if n = name then some q else qm.Queues n

/-- Embedding of `QueueManager.GetQueue` (src/main.go lines 76-84): if the
name is absent, store a fresh `&Queue{}` under it; then return the queue
stored under the name, together with the updated manager state. -/
def QueueManager.GetQueue (qm : QueueManager) (name : String) :
    Queue × QueueManager :=
  match qm.Queues name with
  | some q => (q, qm)
  | none => (Queue.emptyQ, qm.setQueue name Queue.emptyQ)

/-- The queue-task path of `pushTaskHandler` (src/main.go lines 110-111):
`GetQueue` then `Push` through the returned pointer; the mutation through
the pointer is modelled by storing the pushed queue back under the name. -/
def QueueManager.pushTask (qm : QueueManager) (name : String) (task : Task) :
    QueueManager :=
  let r := qm.GetQueue name
  r.2.setQueue name (r.1.Push task)

/-- The queue-task path of `popTaskHandler` (src/main.go lines 126-127):
`GetQueue` then `Pop`, the mutation written back under the name. -/
def QueueManager.popTask (qm : QueueManager) (name : String) :
    Option Task × QueueManager :=
  let r := qm.GetQueue name
  let p := r.1.Pop
  (p.1, r.2.setQueue name p.2)

/-- Embedding of `pushTaskHandler` (src/main.go lines 89-115) after JSON
decoding: a missing queue name is a client error (`none`); an empty
priority field is rewritten to "low" (lines 104-107) before the task
reaches `Push`. -/
def pushTaskHandler (qm : QueueManager) (queueName : String) (task : Task) :
    Option QueueManager :=
  if queueName = "" then none
  else
    let task := if task.Priority = "" then { task with Priority := "low" } else task
    some (qm.pushTask queueName task)

/-- Embedding of `popTaskHandler` (src/main.go lines 118-134): a missing
queue name is a client error (`none`); otherwise the popped task (or the
distinct empty outcome `some none`) and the updated state. -/
def popTaskHandler (qm : QueueManager) (queueName : String) :
    Option (Option Task) × QueueManager :=
  if queueName = "" then (none, qm)
  else
    let r := qm.popTask queueName
    (some r.1, r.2)

/-- The kind of access `GetQueue` acquires on the manager's `sync.RWMutex`. -/
inductive LockMode where
  | sharedRead
  | exclusive
  deriving DecidableEq

/-- The lock acquisition performed by `QueueManager.GetQueue`
(src/main.go line 77): `qm.mu.Lock()` — the exclusive write lock of the
`RWMutex` — is taken unconditionally at entry, before the existence check,
so it is the same for a lookup of an existing name as for a creation;
`RLock()` is never called anywhere in the source. -/
def GetQueueLockAcquired (_qm : QueueManager) (_name : String) : LockMode :=
  LockMode.exclusive

/-- Repeated popping: run `n` consecutive `Pop` calls, collecting results. -/
def Queue.runPops : Queue → Nat → List (Option Task) × Queue
  | q, 0 => ([], q)
  | q, n + 1 =>
    let p := q.Pop
    let r := Queue.runPops p.2 n
    (p.1 :: r.1, r.2)

/-- Total number of pending tasks: the sum of the three tier lengths. -/
def Queue.size (q : Queue) : Nat :=
  q.High.length + q.Medium.length + q.Low.length

/-- C1: On every queue state (hence on every state reachable by pushes and
pops), `Pop` removes and returns the front element of the first non-empty
tier in the order High, Medium, Low, and returns the empty result exactly
when all three tiers are empty. -/
theorem pop_first_nonempty_tier (q : Queue) :
    ((q.Pop).1 = none ↔ q.High = [] ∧ q.Medium = [] ∧ q.Low = []) ∧
    (∀ t ts, q.High = t :: ts → q.Pop = (some t, { q with High := ts })) ∧
    (∀ t ts, q.High = [] → q.Medium = t :: ts →
      q.Pop = (some t, { q with Medium := ts })) ∧
    (∀ t ts, q.High = [] → q.Medium = [] → q.Low = t :: ts →
      q.Pop = (some t, { q with Low := ts })) := by
  rcases q with ⟨h, m, l⟩
  cases h <;> cases m <;> cases l <;> simp_all [Queue.Pop]

/-- Witness for C1 at a concrete queue: Medium is the first non-empty tier. -/
theorem pop_first_nonempty_tier_witness :
    Queue.Pop ⟨[], [⟨"a", "medium"⟩], [⟨"b", "low"⟩]⟩ =
      (some ⟨"a", "medium"⟩, ⟨[], [], [⟨"b", "low"⟩]⟩) :=
  (pop_first_nonempty_tier ⟨[], [⟨"a", "medium"⟩], [⟨"b", "low"⟩]⟩).2.2.1
    ⟨"a", "medium"⟩ [] rfl rfl

/-- C2: Strict FIFO within a tier. Starting from the empty queue, for every
sequence of queue-level operations and every tier `T`, the sequence of
tasks popped from `T` is exactly an initial segment of the sequence of
tasks pushed into `T` (so the task pushed earlier into a tier is always
returned before one pushed later), and the tasks still pending in `T` are
the rest of that sequence in unchanged order. -/
theorem fifo_within_tier (ops : List Op) (T : Tier) :
    ∃ k, poppedFrom T (Queue.runLog Queue.emptyQ ops).1 = (pushedTo T ops).take k ∧
      Queue.tierGet (Queue.runLog Queue.emptyQ ops).2 T = (pushedTo T ops).drop k := by
  obtain ⟨k, hk, hpop, hdrop⟩ := Queue.runLog_fifo T ops Queue.emptyQ
  have he : Queue.tierGet Queue.emptyQ T = [] := by cases T <;> rfl
  rw [he] at hpop hdrop
  exact ⟨k, by simpa using hpop, by simpa using hdrop⟩

/-- C5: On a queue whose three tiers are all empty, `Pop` returns the empty
result and leaves the state unchanged, and any number of repeated pops
yields only empty results while never changing the state. -/
theorem pop_empty_is_stable (q : Queue)
    (h : q.High = [] ∧ q.Medium = [] ∧ q.Low = []) :
    q.Pop = (none, q) ∧ ∀ n, Queue.runPops q n = (List.replicate n none, q) := by
  obtain ⟨h1, h2, h3⟩ := h
  rcases q with ⟨hh, mm, ll⟩
  simp only at h1 h2 h3
  subst h1
  subst h2
  subst h3
  refine ⟨rfl, ?_⟩
  intro n
  induction n with
  | zero => rfl
  | succ n ih => simp [Queue.runPops, Queue.Pop, ih, List.replicate_succ]

/-- Witness for C5: three pops on the untouched empty queue. -/
theorem pop_empty_is_stable_witness :
    Queue.Pop Queue.emptyQ = (none, Queue.emptyQ) ∧
    Queue.runPops Queue.emptyQ 3 = (List.replicate 3 none, Queue.emptyQ) :=
  ⟨(pop_empty_is_stable Queue.emptyQ ⟨rfl, rfl, rfl⟩).1,
    (pop_empty_is_stable Queue.emptyQ ⟨rfl, rfl, rfl⟩).2 3⟩

/-- C6: `Push` appends the task to exactly the one tier selected by its
priority and leaves the other two tier sequences unchanged; as a total
function of the embedding it never fails. -/
theorem push_mutates_one_tier (q : Queue) (t : Task) (T : Tier) :
    Queue.tierGet (q.Push t) T =
      if effTier t = T then Queue.tierGet q T ++ [t] else Queue.tierGet q T :=
  Queue.push_tierGet q t T

/-- C9: Tasks are stored and returned verbatim: every (tier, task) pair in
a pop log from the empty queue carries a task value field-for-field equal
to one pushed into that tier, and a task with the unrecognized priority
"urgent" lands in the low tier while its stored value keeps body and
priority string unchanged. -/
theorem popped_task_verbatim :
    (∀ ops p, p ∈ (Queue.runLog Queue.emptyQ ops).1 → p.2 ∈ pushedTo p.1 ops) ∧
    (∀ b, effTier ⟨b, "urgent"⟩ = Tier.low ∧
      (Queue.Push Queue.emptyQ ⟨b, "urgent"⟩).Low = [⟨b, "urgent"⟩]) := by
  constructor
  · intro ops p hp
    rcases p with ⟨T, t⟩
    obtain ⟨k, hk, hpop, hdrop⟩ := Queue.runLog_fifo T ops Queue.emptyQ
    have he : Queue.tierGet Queue.emptyQ T = [] := by cases T <;> rfl
    rw [he] at hpop
    have hmem : t ∈ poppedFrom T (Queue.runLog Queue.emptyQ ops).1 :=
      List.mem_filterMap.mpr ⟨(T, t), hp, by simp⟩
    rw [hpop] at hmem
    have := List.take_subset k ((List.nil ++ pushedTo T ops)) hmem
    simpa using this
  · intro b
    constructor
    · simp [effTier]
    · simp [Queue.Push, Queue.emptyQ]

/-- Witness for C9: the "urgent" task pushed once and popped once. -/
theorem popped_task_verbatim_witness :
    (Tier.low, (⟨"x", "urgent"⟩ : Task)) ∈
      (Queue.runLog Queue.emptyQ [Op.push ⟨"x", "urgent"⟩, Op.pop]).1 ∧
    (⟨"x", "urgent"⟩ : Task) ∈ pushedTo Tier.low [Op.push ⟨"x", "urgent"⟩, Op.pop] :=
  ⟨by decide,
    popped_task_verbatim.1 [Op.push ⟨"x", "urgent"⟩, Op.pop]
      (Tier.low, ⟨"x", "urgent"⟩) (by decide)⟩

/-- C10: `Push` grows the total task count by exactly one; `Pop` on a
non-empty queue shrinks it by exactly one, the removed task being exactly
the returned one (it is the front of one tier, the other tiers unchanged);
`Pop` on an empty queue changes nothing. -/
theorem push_pop_conserve_tasks (q : Queue) (t : Task) :
    Queue.size (q.Push t) = Queue.size q + 1 ∧
    (∀ q1, q.Pop = (none, q1) → q1 = q) ∧
    (∀ x q1, q.Pop = (some x, q1) →
      Queue.size q1 + 1 = Queue.size q ∧
      ∃ T, Queue.tierGet q T = x :: Queue.tierGet q1 T ∧
        ∀ S, S ≠ T → Queue.tierGet q1 S = Queue.tierGet q S) := by
  refine ⟨?_, ?_, ?_⟩
  · unfold Queue.Push Queue.size
    split_ifs <;> simp <;> omega
  · intro q1 hq
    rcases q with ⟨h, m, l⟩
    cases h <;> cases m <;> cases l <;> simp_all [Queue.Pop]
  · intro x q1 hq
    rcases q with ⟨h, m, l⟩
    rcases h with _ | ⟨a, hs⟩
    · rcases m with _ | ⟨a, ms⟩
      · rcases l with _ | ⟨a, ls⟩
        · simp [Queue.Pop] at hq
        · simp only [Queue.Pop, Prod.mk.injEq, Option.some.injEq] at hq
          obtain ⟨hx, hq1⟩ := hq
          subst hx
          subst hq1
          refine ⟨by simp [Queue.size], Tier.low, by simp [Queue.tierGet], ?_⟩
          intro S hS
          cases S <;> simp_all [Queue.tierGet]
      · simp only [Queue.Pop, Prod.mk.injEq, Option.some.injEq] at hq
        obtain ⟨hx, hq1⟩ := hq
        subst hx
        subst hq1
        refine ⟨by simp [Queue.size]; omega, Tier.medium, by simp [Queue.tierGet], ?_⟩
        intro S hS
        cases S <;> simp_all [Queue.tierGet]
    · simp only [Queue.Pop, Prod.mk.injEq, Option.some.injEq] at hq
      obtain ⟨hx, hq1⟩ := hq
      subst hx
      subst hq1
      refine ⟨by simp [Queue.size]; omega, Tier.high, by simp [Queue.tierGet], ?_⟩
      intro S hS
      cases S <;> simp_all [Queue.tierGet]

/-- Witness for C10: popping a one-element queue returns that element and
shrinks the size from one to zero. -/
theorem push_pop_conserve_tasks_witness :
    Queue.Pop ⟨[⟨"a", "high"⟩], [], []⟩ = (some ⟨"a", "high"⟩, ⟨[], [], []⟩) ∧
    (Queue.size (⟨[], [], []⟩ : Queue) + 1 =
        Queue.size ⟨[⟨"a", "high"⟩], [], []⟩ ∧
      ∃ T, Queue.tierGet ⟨[⟨"a", "high"⟩], [], []⟩ T =
          ⟨"a", "high"⟩ :: Queue.tierGet ⟨[], [], []⟩ T ∧
        ∀ S, S ≠ T →
          Queue.tierGet (⟨[], [], []⟩ : Queue) S =
            Queue.tierGet ⟨[⟨"a", "high"⟩], [], []⟩ S) :=
  ⟨rfl,
    (push_pop_conserve_tasks ⟨[⟨"a", "high"⟩], [], []⟩ ⟨"b", "low"⟩).2.2
      ⟨"a", "high"⟩ ⟨[], [], []⟩ rfl⟩

theorem QueueManager.setQueue_other (qm : QueueManager) (a b : String)
    (q : Queue) (hab : b ≠ a) : (qm.setQueue a q).Queues b = qm.Queues b := by
  simp [QueueManager.setQueue, hab]

theorem QueueManager.getQueue_other (qm : QueueManager) (a b : String)
    (hab : b ≠ a) : ((qm.GetQueue a).2).Queues b = qm.Queues b := by
  unfold QueueManager.GetQueue
  cases hq : qm.Queues a with
  | some q => rfl
  | none => simp [QueueManager.setQueue, hab]

theorem QueueManager.getQueue_fst_congr (qm1 qm2 : QueueManager) (b : String)
    (h : qm1.Queues b = qm2.Queues b) :
    (qm1.GetQueue b).1 = (qm2.GetQueue b).1 := by
  unfold QueueManager.GetQueue
  rw [h]
  cases qm2.Queues b <;> rfl

theorem QueueManager.popTask_fst_congr (qm1 qm2 : QueueManager) (b : String)
    (h : qm1.Queues b = qm2.Queues b) :
    (qm1.popTask b).1 = (qm2.popTask b).1 := by
  show ((qm1.GetQueue b).1.Pop).1 = ((qm2.GetQueue b).1.Pop).1
  rw [QueueManager.getQueue_fst_congr qm1 qm2 b h]

theorem QueueManager.pushTask_queues_other (qm : QueueManager) (a b : String)
    (t : Task) (hab : b ≠ a) : (qm.pushTask a t).Queues b = qm.Queues b := by
  show ((qm.GetQueue a).2.setQueue a _).Queues b = qm.Queues b
  rw [QueueManager.setQueue_other _ _ _ _ hab,
    QueueManager.getQueue_other _ _ _ hab]

theorem QueueManager.popTask_queues_other (qm : QueueManager) (a b : String)
    (hab : b ≠ a) : ((qm.popTask a).2).Queues b = qm.Queues b := by
  show ((qm.GetQueue a).2.setQueue a _).Queues b = qm.Queues b
  rw [QueueManager.setQueue_other _ _ _ _ hab,
    QueueManager.getQueue_other _ _ _ hab]

/-- After `pushTask`, the queue resolved under the same name is the old
resolved queue with the task pushed. -/
theorem QueueManager.pushTask_get (qm : QueueManager) (name : String)
    (task : Task) :
    ((qm.pushTask name task).GetQueue name).1 = ((qm.GetQueue name).1).Push task := by
  have hq : (qm.pushTask name task).Queues name =
      some (((qm.GetQueue name).1).Push task) := by
    show ((qm.GetQueue name).2.setQueue name _).Queues name = _
    simp [QueueManager.setQueue]
  unfold QueueManager.GetQueue
  rw [hq]
  rfl

/-- C4: `GetQueue` is get-or-create: after a call the name maps to the
returned queue; an existing name returns its stored queue with the state
untouched; an absent name stores and returns a fresh empty queue; and an
immediately repeated resolve of the same name returns the very same queue
and leaves the state unchanged, so one queue per distinct name. -/
theorem getQueue_get_or_create (qm : QueueManager) (name : String) :
    ((qm.GetQueue name).2).Queues name = some (qm.GetQueue name).1 ∧
    (∀ q0, qm.Queues name = some q0 → qm.GetQueue name = (q0, qm)) ∧
    (qm.Queues name = none →
      qm.GetQueue name = (Queue.emptyQ, qm.setQueue name Queue.emptyQ)) ∧
    ((qm.GetQueue name).2).GetQueue name =
      ((qm.GetQueue name).1, (qm.GetQueue name).2) := by
  cases hq : qm.Queues name with
  | some q =>
    refine ⟨?_, ?_, ?_, ?_⟩ <;> simp [QueueManager.GetQueue, hq]
  | none =>
    refine ⟨?_, ?_, ?_, ?_⟩ <;>
      simp [QueueManager.GetQueue, QueueManager.setQueue, hq]

/-- Witness for C4: resolving a fresh name on the empty manager creates and
stores an empty queue; resolving it again returns the same queue and state. -/
theorem getQueue_get_or_create_witness :
    NewQueueManager.Queues "q" = none ∧
    NewQueueManager.GetQueue "q" =
      (Queue.emptyQ, NewQueueManager.setQueue "q" Queue.emptyQ) ∧
    ((NewQueueManager.GetQueue "q").2).GetQueue "q" =
      ((NewQueueManager.GetQueue "q").1, (NewQueueManager.GetQueue "q").2) :=
  ⟨rfl, (getQueue_get_or_create NewQueueManager "q").2.2.1 rfl,
    (getQueue_get_or_create NewQueueManager "q").2.2.2⟩

/-- C7: Isolation across names. For distinct names `a` and `b`, resolving,
pushing or popping on `a` never changes the state stored under `b`, and
never changes the result a pop on `b` returns — including when the names
are resolved for the first time. -/
theorem queue_name_isolation (qm : QueueManager) (a b : String) (t : Task)
    (hab : b ≠ a) :
    ((qm.GetQueue a).2).Queues b = qm.Queues b ∧
    (qm.pushTask a t).Queues b = qm.Queues b ∧
    ((qm.popTask a).2).Queues b = qm.Queues b ∧
    ((qm.pushTask a t).popTask b).1 = (qm.popTask b).1 ∧
    (((qm.popTask a).2).popTask b).1 = (qm.popTask b).1 := by
  refine ⟨QueueManager.getQueue_other qm a b hab,
    QueueManager.pushTask_queues_other qm a b t hab,
    QueueManager.popTask_queues_other qm a b hab,
    QueueManager.popTask_fst_congr _ _ b
      (QueueManager.pushTask_queues_other qm a b t hab),
    QueueManager.popTask_fst_congr _ _ b
      (QueueManager.popTask_queues_other qm a b hab)⟩

/-- Witness for C7: pushing to "alpha" on the fresh manager does not change
what a pop on "beta" returns. -/
theorem queue_name_isolation_witness :
    ("beta" : String) ≠ "alpha" ∧
    ((NewQueueManager.pushTask "alpha" ⟨"x", "high"⟩).popTask "beta").1 =
      (NewQueueManager.popTask "beta").1 :=
  ⟨by decide,
    (queue_name_isolation NewQueueManager "alpha" "beta" ⟨"x", "high"⟩
      (by decide)).2.2.2.1⟩

/-- C3 counterexample: a task with the unrecognized non-empty priority
"urgent" is accepted by the push handler and enqueued in the low tier, but
when popped it is returned with its original priority string "urgent",
not with priority "low" as the claim states. -/
theorem unrecognized_priority_kept_cx :
    pushTaskHandler NewQueueManager "q" ⟨"x", "urgent"⟩ =
      some (NewQueueManager.pushTask "q" ⟨"x", "urgent"⟩) ∧
    ((NewQueueManager.pushTask "q" ⟨"x", "urgent"⟩).GetQueue "q").1.Low =
      [⟨"x", "urgent"⟩] ∧
    ((NewQueueManager.pushTask "q" ⟨"x", "urgent"⟩).popTask "q").1 =
      some ⟨"x", "urgent"⟩ ∧
    (some (Task.mk "x" "urgent")).map Task.Priority ≠ some "low" := by
  refine ⟨?_, ?_, ?_, ?_⟩
  · rfl
  · rfl
  · rfl
  · decide

/-- C3 (amended): A task whose priority is absent or unrecognized is never
rejected: the handler accepts it and it is enqueued in the low tier (the
other tiers unchanged). An absent (empty) priority is rewritten to "low"
by the handler before the push, so such a task is returned with priority
"low"; an unrecognized non-empty priority is stored and returned with its
original string, even though the task is queued in the low tier. -/
theorem unrecognized_priority_low_tier (qm : QueueManager) (name : String)
    (task : Task) (hn : name ≠ "")
    (h1 : task.Priority ≠ "high") (h2 : task.Priority ≠ "medium") :
    ∃ stored,
      pushTaskHandler qm name task = some (qm.pushTask name stored) ∧
      stored.Body = task.Body ∧
      stored.Priority = (if task.Priority = "" then "low" else task.Priority) ∧
      effTier stored = Tier.low ∧
      ((qm.pushTask name stored).GetQueue name).1.Low =
        ((qm.GetQueue name).1).Low ++ [stored] ∧
      (∀ T, T ≠ Tier.low →
        Queue.tierGet ((qm.pushTask name stored).GetQueue name).1 T =
          Queue.tierGet (qm.GetQueue name).1 T) := by
  refine ⟨if task.Priority = "" then { task with Priority := "low" } else task,
    ?_, ?_, ?_, ?_, ?_, ?_⟩
  · simp [pushTaskHandler, hn]
  · by_cases h0 : task.Priority = "" <;> simp [h0]
  · by_cases h0 : task.Priority = "" <;> simp [h0]
  · by_cases h0 : task.Priority = "" <;> simp [effTier, h0, h1, h2]
  · rw [QueueManager.pushTask_get]
    have heff : effTier (if task.Priority = ""
        then { task with Priority := "low" } else task) = Tier.low := by
      by_cases h0 : task.Priority = "" <;> simp [effTier, h0, h1, h2]
    have := Queue.push_tierGet (qm.GetQueue name).1
      (if task.Priority = "" then { task with Priority := "low" } else task)
      Tier.low
    rw [heff] at this
    simpa [Queue.tierGet] using this
  · intro T hT
    rw [QueueManager.pushTask_get]
    have heff : effTier (if task.Priority = ""
        then { task with Priority := "low" } else task) = Tier.low := by
      by_cases h0 : task.Priority = "" <;> simp [effTier, h0, h1, h2]
    have := Queue.push_tierGet (qm.GetQueue name).1
      (if task.Priority = "" then { task with Priority := "low" } else task) T
    have hne : ¬(Tier.low = T) := fun h => hT h.symm
    rw [heff, if_neg hne] at this
    exact this

/-- Witness for C3 (amended): the default-priority scenario, a task with
absent priority pushed to "q2" through the handler. -/
theorem unrecognized_priority_low_tier_witness :
    ("q2" : String) ≠ "" ∧
    (∃ stored,
      pushTaskHandler NewQueueManager "q2" ⟨"x", ""⟩ =
        some (NewQueueManager.pushTask "q2" stored) ∧
      stored.Body = "x" ∧
      stored.Priority = (if ("" : String) = "" then "low" else "") ∧
      effTier stored = Tier.low ∧
      ((NewQueueManager.pushTask "q2" stored).GetQueue "q2").1.Low =
        ((NewQueueManager.GetQueue "q2").1).Low ++ [stored] ∧
      (∀ T, T ≠ Tier.low →
        Queue.tierGet ((NewQueueManager.pushTask "q2" stored).GetQueue "q2").1 T =
          Queue.tierGet (NewQueueManager.GetQueue "q2").1 T)) :=
  ⟨by decide,
    unrecognized_priority_low_tier NewQueueManager "q2" ⟨"x", ""⟩
      (by decide) (by decide) (by decide)⟩

/-- C8 counterexample: on a manager state where the name "q" already
exists, `GetQueue` still acquires the exclusive write lock, not the shared
read lock, so a lookup of an existing name does not take only shared
access as the claim states. -/
theorem getQueue_lookup_exclusive_cx :
    ((((NewQueueManager.GetQueue "q").2).Queues "q").isSome = true) ∧
    GetQueueLockAcquired ((NewQueueManager.GetQueue "q").2) "q" =
      LockMode.exclusive ∧
    LockMode.exclusive ≠ LockMode.sharedRead := by
  refine ⟨rfl, rfl, by decide⟩

/-- C8 (amended): `GetQueue` acquires the exclusive write lock of the
manager's `RWMutex` on every call — for lookups of already-existing names
exactly as for the creation path — so resolutions of distinct existing
names serialize against each other; the shared read path of the `RWMutex`
is never used. -/
theorem getQueue_always_exclusive (qm : QueueManager) (name : String) :
    GetQueueLockAcquired qm name = LockMode.exclusive := rfl

end Broker
